import Mathlib

/-!
# Verification of the Vue 2 reactivity core (annotated source study repo)

Shallow embedding of the reactivity subsystem:
* `src/core/observer/dep.js` — `Dep` (subscriber list, `notify`), the target stack;
* `src/core/observer/watcher.js` — `Watcher.addDep`, `cleanupDeps`, `get`,
  `run`, `teardown`;
* `src/core/observer/index.js` — `observe`, `defineReactive`'s setter, `set`;
* `src/core/observer/array.js` — the seven intercepted array mutators.

JavaScript machine details are modelled explicitly: strict equality `===`
(with `NaN !== NaN`) by `seq` on an explicit value type, JS `Set`s by lists
with membership checks, object stores by association lists, and the mutable
heap of `Dep` objects by a list of `Dep` records indexed by their unique ids.
-/

namespace V2

/-- JS values as far as the reactivity core compares them: numbers, `NaN`,
`undefined`, strings, and reference values (objects, identified by id).
`NaN` is split from `num` because `NaN === NaN` is false. -/
inductive JsVal where
  | num (n : Int)
  | nan
  | undef
  | str (s : String)
  | obj (id : Nat)
deriving DecidableEq, BEq, Repr

/-- JS strict equality `===`: `NaN` is unequal to everything, itself
included; otherwise structural equality (reference equality for `obj`). -/
def seq : JsVal → JsVal → Bool
  | .nan, _ => false
  | _, .nan => false
  | .num a, .num b => a == b
  | .undef, .undef => true
  | .str a, .str b => a == b
  | .obj a, .obj b => a == b
  | _, _ => false

/-- JS `isObject(v)`: `v !== null && typeof v === 'object'`
(`src/shared/util.js`). In this value model only `obj` qualifies. -/
def isObjectVal : JsVal → Bool
  | .obj _ => true
  | _ => false

/-! ## Dep (`src/core/observer/dep.js`)

A `Dep` is its unique id plus its subscriber list; subscribers are watcher
ids. The mutable collection of live `Dep` objects is a `List Dep` (the
"store"); ids are unique in the real system (`uid++`), and all theorems
below hold per dep record regardless. -/

structure Dep where
  id : Nat
  subs : List Nat
deriving DecidableEq, Repr

/-- `Dep.addSub(sub)`: `this.subs.push(sub)`. -/
def Dep.addSub (d : Dep) (wid : Nat) : Dep :=
  { d with subs := d.subs ++ [wid] }

/-- `Dep.removeSub(sub)`: `remove(this.subs, sub)` — `remove` from
`src/shared/util.js` splices out the first occurrence found by `indexOf`. -/
def Dep.removeSub (d : Dep) (wid : Nat) : Dep :=
  { d with subs := d.subs.erase wid }

/-- Effect of `dep.addSub(watcher)` on the store: the dep object with id
`did` gains `wid` at the end of its subscriber list. -/
def storeAddSub (st : List Dep) (did wid : Nat) : List Dep :=
  st.map fun d => if d.id = did then d.addSub wid else d

/-- Effect of `dep.removeSub(watcher)` on the store. -/
def storeRemoveSub (st : List Dep) (did wid : Nat) : List Dep :=
  st.map fun d => if d.id = did then d.removeSub wid else d

/-- `Dep.notify()`: snapshot the subscriber list (`this.subs.slice()`); in a
non-production build with `config.async === false`, sort the snapshot by id
ascending (`(a, b) => a.id - b.id`); then call `update()` on each in order.
The returned list is the order in which subscribers are updated. -/
def Dep.notifyOrder (isDev async : Bool) (d : Dep) : List Nat :=
  let subsSnapshot := d.subs
  if isDev && !async then subsSnapshot.mergeSort (fun a b => a ≤ b)
  else subsSnapshot

/-! ## Watcher dependency bookkeeping (`src/core/observer/watcher.js`)

The four dep-tracking fields of a `Watcher`. JS `Set`s (`depIds`,
`newDepIds`) are lists queried only by membership; `add` appends (it is
only reached when the id is absent). The watcher's own id is a parameter
`wid` — it is fixed at construction and never written. -/

structure WDeps where
  depIds : List Nat
  newDepIds : List Nat
  deps : List Nat
  newDeps : List Nat
deriving DecidableEq, Repr

/-- `Watcher.addDep(dep)`:
```
const id = dep.id
if (!this.newDepIds.has(id)) {
  this.newDepIds.add(id)
  this.newDeps.push(dep)
  if (!this.depIds.has(id)) {
    dep.addSub(this)
  }
}
``` -/
def addDep (wid : Nat) (w : WDeps) (st : List Dep) (did : Nat) : WDeps × List Dep :=
  if w.newDepIds.contains did then (w, st)
  else
    let w1 := { w with newDepIds := w.newDepIds ++ [did], newDeps := w.newDeps ++ [did] }
    if w.depIds.contains did then (w1, st)
    else (w1, storeAddSub st did wid)

/-- The removal loop of `Watcher.cleanupDeps`:
```
let i = this.deps.length
while (i--) {
  const dep = this.deps[i]
  if (!this.newDepIds.has(dep.id)) {
    dep.removeSub(this)
  }
}
```
`foldr` visits the last entry of `depsList` first, like the backwards
`while (i--)` loop. -/
def cleanupStore (wid : Nat) (newIds : List Nat) (depsList : List Nat) (st : List Dep) : List Dep :=
  depsList.foldr
    (fun did acc => if newIds.contains did then acc else storeRemoveSub acc did wid) st

/-- The effect of the `cleanupDeps` removal loop on a single dep record
(the store-level loop is its pointwise image, proved below). -/
def depCleanup (wid : Nat) (newIds depsList : List Nat) (d : Dep) : Dep :=
  depsList.foldr
    (fun did acc =>
      if newIds.contains did then acc
      else if acc.id = did then acc.removeSub wid else acc) d

/-- `Watcher.cleanupDeps()`: the removal loop, then the swap-and-clear —
`depIds ↔ newDepIds; newDepIds.clear(); deps ↔ newDeps; newDeps.length = 0`. -/
def cleanupDeps (wid : Nat) (w : WDeps) (st : List Dep) : WDeps × List Dep :=
  ({ depIds := w.newDepIds, newDepIds := [], deps := w.newDeps, newDeps := [] },
   cleanupStore wid w.newDepIds w.deps st)

/-- The dependency recordings performed while the getter runs: one
`dep.depend()` → `Dep.target.addDep(dep)` per property read, in read
order (`reads` is the list of dep ids the evaluation touches). -/
def addDeps (wid : Nat) (w : WDeps) (st : List Dep) (reads : List Nat) : WDeps × List Dep :=
  reads.foldl (fun p did => addDep wid p.1 p.2 did) (w, st)

/-- The dep-bookkeeping effect of one `Watcher.get()` evaluation: record
every dep the getter reads, then `cleanupDeps()`. -/
def runGet (wid : Nat) (w : WDeps) (st : List Dep) (reads : List Nat) : WDeps × List Dep :=
  let p := addDeps wid w st reads
  cleanupDeps wid p.1 p.2

/-- The dep-bookkeeping effect of a whole sequence of evaluations. -/
def runGets (wid : Nat) (w : WDeps) (st : List Dep) (evals : List (List Nat)) : WDeps × List Dep :=
  evals.foldl (fun p reads => runGet wid p.1 p.2 reads) (w, st)

/-- A freshly constructed watcher's dep fields: `this.deps = []`,
`this.newDeps = []`, `this.depIds = new Set()`, `this.newDepIds = new Set()`. -/
def freshWDeps : WDeps :=
  { depIds := [], newDepIds := [], deps := [], newDeps := [] }

/-! ### The subscription invariant

`countInv`: each dep record holds the watcher exactly once if its id is in
`depIds ∪ newDepIds`, and not at all otherwise. `listsMatch`: `deps` /
`newDeps` hold the same ids as the sets `depIds` / `newDepIds`. `Inv` is
the between-evaluations state (the `new*` side is empty). -/

def countInv (wid : Nat) (w : WDeps) (st : List Dep) : Prop :=
  ∀ d ∈ st, d.subs.count wid = (if d.id ∈ w.depIds ∨ d.id ∈ w.newDepIds then 1 else 0)

def listsMatch (w : WDeps) : Prop :=
  (∀ i, i ∈ w.deps ↔ i ∈ w.depIds) ∧ (∀ i, i ∈ w.newDeps ↔ i ∈ w.newDepIds)

def InvMid (wid : Nat) (w : WDeps) (st : List Dep) : Prop :=
  countInv wid w st ∧ listsMatch w

def Inv (wid : Nat) (w : WDeps) (st : List Dep) : Prop :=
  InvMid wid w st ∧ w.newDepIds = [] ∧ w.newDeps = []

/-! ## Target stack (`src/core/observer/dep.js`)

`targetStack` with its top at the head. `Dep.target` is derived: it is the
top entry, or `undefined` (`none`) when the stack is empty — exactly what
`Dep.target = targetStack[targetStack.length - 1]` leaves behind. -/

/-- `pushTarget(target)`: `targetStack.push(target); Dep.target = target`. -/
def pushTarget (t : Option Nat) (stack : List (Option Nat)) : List (Option Nat) :=
  t :: stack

/-- `popTarget()`: `targetStack.pop(); Dep.target = targetStack[len - 1]`. -/
def popTarget (stack : List (Option Nat)) : List (Option Nat) :=
  stack.tail

/-- The value of `Dep.target` determined by the stack. -/
def currentTarget (stack : List (Option Nat)) : Option Nat :=
  match stack.head? with
  | some t => t
  | none => none

/-! ## `Watcher.get()` with error handling (claim C4) -/

/-- Result of one `Watcher.get()` call. `result = .ok (some v)`: the getter
returned `v`; `.ok none`: the getter threw, the watcher is `user`-flagged,
the error was swallowed (`get` returns the still-`undefined` local `value`
as `none` here); `.error e`: the getter threw and the exception propagated.
`handled` lists the errors routed to `handleError`. -/
structure GetOut where
  result : Except String (Option JsVal)
  handled : List String
  stack : List (Option Nat)
  w : WDeps
  st : List Dep

/-- `Watcher.get()`:
```
pushTarget(this)
let value
try { value = this.getter.call(vm, vm) }
catch (e) { if (this.user) handleError(e, ...) else throw e }
finally {
  if (this.deep) traverse(value)
  popTarget()
  this.cleanupDeps()
}
return value
```
`gr` is the getter's outcome; `reads` are the dep ids the getter touched
before returning or throwing; `traverseReads` are the dep ids `traverse`
touches on the getter's result (when the getter threw, the local `value` is
still `undefined`, and `traverse(undefined)` touches nothing). The `throw e`
raised in the `catch` block still runs the `finally` block before
propagating. -/
def watcherGet (wid : Nat) (user deep : Bool) (gr : Except String JsVal)
    (reads traverseReads : List Nat) (stack : List (Option Nat))
    (w : WDeps) (st : List Dep) : GetOut :=
  let stack1 := pushTarget (some wid) stack
  let p1 := addDeps wid w st reads
  let tReads := match gr with
    | .ok _ => if deep then traverseReads else []
    | .error _ => []
  let p2 := addDeps wid p1.1 p1.2 tReads
  let stack2 := popTarget stack1
  let p3 := cleanupDeps wid p2.1 p2.2
  let handled := match gr with
    | .ok _ => []
    | .error e => if user then [e] else []
  let result : Except String (Option JsVal) := match gr with
    | .ok v => .ok (some v)
    | .error e => if user then .ok none else .error e
  { result := result, handled := handled, stack := stack2, w := p3.1, st := p3.2 }

/-! ## `Watcher.run()` and `Watcher.teardown()` (claim C3) -/

/-- Observable effect of `Watcher.run()`. `evaluated`: whether `this.get()`
was called at all; `fired`: whether the callback `this.cb` was invoked;
`value`: the watcher's `this.value` afterwards. -/
structure RunOut where
  value : JsVal
  fired : Bool
  evaluated : Bool
deriving DecidableEq, Repr

/-- `Watcher.run()`:
```
if (this.active) {
  const value = this.get()
  if (value !== this.value || isObject(value) || this.deep) {
    const oldValue = this.value
    this.value = value
    /* cb invoked with (value, oldValue), via error wrapper when user */
  }
}
```
`newValue` stands for what `this.get()` would return; when `active` is
false nothing runs. -/
def runW (active deep : Bool) (oldValue newValue : JsVal) : RunOut :=
  if active then
    if !seq newValue oldValue || isObjectVal newValue || deep then
      { value := newValue, fired := true, evaluated := true }
    else
      { value := oldValue, fired := false, evaluated := true }
  else
    { value := oldValue, fired := false, evaluated := false }

/-- The removal loop of `Watcher.teardown()`:
```
let i = this.deps.length
while (i--) { this.deps[i].removeSub(this) }
``` -/
def teardownStore (wid : Nat) (depsList : List Nat) (st : List Dep) : List Dep :=
  depsList.foldr (fun did acc => storeRemoveSub acc did wid) st

/-- The non-dep part of a watcher's state that `teardown` touches. -/
structure TearState where
  active : Bool
  vmWatchers : List Nat
  vmDestroying : Bool
deriving DecidableEq, Repr

/-- `Watcher.teardown()`:
```
if (this.active) {
  if (!this.vm._isBeingDestroyed) remove(this.vm._watchers, this)
  let i = this.deps.length
  while (i--) this.deps[i].removeSub(this)
  this.active = false
}
``` -/
def teardown (wid : Nat) (w : WDeps) (ts : TearState) (st : List Dep) :
    TearState × List Dep :=
  if ts.active then
    let vmW := if ts.vmDestroying then ts.vmWatchers else ts.vmWatchers.erase wid
    let st1 := teardownStore wid w.deps st
    ({ ts with active := false, vmWatchers := vmW }, st1)
  else (ts, st)

/-! ## The reactive setter installed by `defineReactive` (claim C5)

`src/core/observer/index.js`, `set: function reactiveSetter (newVal)`.
The closure state is the held `val`; a pre-existing getter is modelled by
the value it currently returns (`getter : Option JsVal`); a pre-existing
setter by `hasSetter`. -/

/-- Observable outcome of one reactive-setter invocation. `val` is the
closure-held value afterwards; `observedNew` records whether
`observe(newVal)` was attempted (`childOb = !shallow && observe(newVal)`). -/
structure SetterOut where
  val : JsVal
  setterCalled : Bool
  observedNew : Bool
  notified : Bool
  customCalled : Bool
deriving DecidableEq, Repr

/-- `reactiveSetter(newVal)`:
```
const value = getter ? getter.call(obj) : val
if (newVal === value || (newVal !== newVal && value !== value)) return
if (dev && customSetter) customSetter()
if (getter && !setter) return          // #7981
if (setter) setter.call(obj, newVal) else val = newVal
childOb = !shallow && observe(newVal)
dep.notify()
``` -/
def reactiveSetter (isDev hasCustom shallow : Bool) (getter : Option JsVal)
    (hasSetter : Bool) (val newVal : JsVal) : SetterOut :=
  let value := getter.getD val
  if seq newVal value || (!seq newVal newVal && !seq value value) then
    { val := val, setterCalled := false, observedNew := false,
      notified := false, customCalled := false }
  else
    let customCalled := isDev && hasCustom
    if getter.isSome && !hasSetter then
      { val := val, setterCalled := false, observedNew := false,
        notified := false, customCalled := customCalled }
    else
      { val := if hasSetter then val else newVal,
        setterCalled := hasSetter, observedNew := !shallow,
        notified := true, customCalled := customCalled }

/-! ## Array method interception (`src/core/observer/array.js`, claim C6) -/

/-- An invocation of one of the seven patched mutators with its arguments.
`splice` carries the JS `start` / `deleteCount` integers and the inserted
items (`args.slice(2)`); `sort` carries its comparator as the boolean
"`cmp(a,b) <= 0`" relation. -/
inductive ArrOp (α : Type) where
  | push (args : List α)
  | pop
  | shift
  | unshift (args : List α)
  | splice (start delCount : Int) (items : List α)
  | sort (le : α → α → Bool)
  | reverse

/-- What a mutator returns: `push`/`unshift` return the new length,
`pop`/`shift` the removed element or `undefined`, `splice` the removed
slice, `sort`/`reverse` the array itself. -/
inductive ArrRet (α : Type) where
  | len (n : Nat)
  | elem (v : Option α)
  | arr (l : List α)
deriving Repr

/-- `Array.prototype.splice(start, deleteCount, ...items)` semantics:
negative `start` counts from the end (clamped at 0), `start` is clamped at
the length, `deleteCount` is clamped into `[0, length - start]`; returns
(removed, new array). -/
def jsSplice (l : List α) (start delCount : Int) (items : List α) :
    List α × List α :=
  let s := if start < 0 then (l.length + start).toNat else min start.toNat l.length
  let dc := min delCount.toNat (l.length - s)
  ((l.drop s).take dc, l.take s ++ items ++ l.drop (s + dc))

/-- The unwrapped originals: `arrayProto[method]` semantics on a list,
returning (return value, array post-state). JS `sort` is modelled as a
stable sort by the comparator (stable per ES2019; the engines Vue 2 targets
use a stable sort). -/
def applyOriginal (l : List α) : ArrOp α → ArrRet α × List α
  | .push args => (.len (l ++ args).length, l ++ args)
  | .pop => (.elem l.getLast?, l.dropLast)
  | .shift => (.elem l.head?, l.tail)
  | .unshift args => (.len (args ++ l).length, args ++ l)
  | .splice s dc items =>
      let p := jsSplice l s dc items
      (.arr p.1, p.2)
  | .sort le =>
      let l1 := l.mergeSort le
      (.arr l1, l1)
  | .reverse => (.arr l.reverse, l.reverse)

/-- The `inserted` computed by the wrapper's `switch`: `args` for
`push`/`unshift`, `args.slice(2)` for `splice`, nothing otherwise
(`observeArray` is then skipped; observing `[]` is also a no-op). -/
def insertedOf : ArrOp α → List α
  | .push args => args
  | .unshift args => args
  | .splice _ _ items => items
  | _ => []

/-- Observable outcome of one wrapped-mutator call: return value, array
post-state, the elements handed to `ob.observeArray`, and whether
`ob.dep.notify()` ran. -/
structure MutOut (α : Type) where
  ret : ArrRet α
  arr : List α
  observed : List α
  notified : Bool

/-- The `mutator` wrapper installed on `arrayMethods`:
```
const result = original.apply(this, args)
const ob = this.__ob__
let inserted
switch (method) { case 'push': case 'unshift': inserted = args; break
                  case 'splice': inserted = args.slice(2); break }
if (inserted) ob.observeArray(inserted)
ob.dep.notify()
return result
``` -/
def mutator (l : List α) (op : ArrOp α) : MutOut α :=
  let p := applyOriginal l op
  { ret := p.1, arr := p.2, observed := insertedOf op, notified := true }

/-! ## `observe` (`src/core/observer/index.js`, claim C7) -/

/-- The facts about a candidate container that `observe` branches on. -/
structure Container where
  ob : Option Nat
  isArr : Bool
  isPlain : Bool
  extensible : Bool
  isVue : Bool
deriving DecidableEq, Repr

/-- A candidate value for `observe`: a primitive (`!isObject`), a `VNode`
instance, or a container with its `observe`-relevant flags. -/
inductive ObsValue where
  | prim
  | vnode
  | cont (c : Container)
deriving DecidableEq, Repr

/-- What `observe` returned: the pre-existing `__ob__` observer (by id), or
a newly constructed `Observer`. -/
inductive ObRef where
  | existing (id : Nat)
  | created
deriving DecidableEq, Repr

/-- `observe(value)`:
```
if (!isObject(value) || value instanceof VNode) return
let ob
if (hasOwn(value, '__ob__') && value.__ob__ instanceof Observer) {
  ob = value.__ob__
} else if (shouldObserve && !isServerRendering() &&
           (Array.isArray(value) || isPlainObject(value)) &&
           Object.isExtensible(value) && !value._isVue) {
  ob = new Observer(value)
}
return ob
```
(The `asRootData` branch only increments `vmCount` on the result; it does
not affect which observer is returned.) -/
def observe (shouldObs isSSR : Bool) (v : ObsValue) : Option ObRef :=
  match v with
  | .prim => none
  | .vnode => none
  | .cont c =>
    match c.ob with
    | some i => some (.existing i)
    | none =>
      if shouldObs && !isSSR && (c.isArr || c.isPlain) && c.extensible && !c.isVue
      then some .created
      else none

/-! ## `set` (`src/core/observer/index.js`, claim C8) -/

/-- Keys as `set` classifies them: a valid array index, or a property name. -/
inductive SetKey where
  | idx (n : Nat)
  | name (s : String)
deriving DecidableEq, Repr

/-- What `set` knows about `target.__ob__`. -/
structure ObInfo where
  vmCount : Nat
deriving DecidableEq, Repr

/-- A `set` target: an observed-or-not array, or a plain object with its
own fields, `_isVue` flag and optional observer. -/
inductive SetTarget where
  | arr (elems : List JsVal) (ob : Option ObInfo)
  | obj (fields : List (String × JsVal)) (isVue : Bool) (ob : Option ObInfo)
deriving DecidableEq, Repr

/-- Which branch of `set` fired. -/
inductive SetOutcome where
  | spliced
  | assignedExisting
  | refusedVueOrRoot
  | plainAssigned
  | reactiveAdded
deriving DecidableEq, Repr

/-- Result of `set(target, key, val)`: the branch taken, the target's
post-state, and the returned value. -/
structure SetOut where
  outcome : SetOutcome
  target : SetTarget
  ret : JsVal
deriving DecidableEq, Repr

/-- The key as the property name it becomes on an object target. -/
def SetKey.str : SetKey → String
  | .idx n => toString n
  | .name s => s

/-- Replace the first binding of `k` in an association list. -/
def updateField (fields : List (String × JsVal)) (k : String) (v : JsVal) :
    List (String × JsVal) :=
  fields.map fun kv => if kv.1 = k then (k, v) else kv

/-- `set(target, key, val)` (the dev warning for primitive/undefined targets
only warns and falls through; targets here are already arrays or objects):
```
if (Array.isArray(target) && isValidArrayIndex(key)) {
  target.length = Math.max(target.length, key)
  target.splice(key, 1, val)
  return val
}
if (key in target && !(key in Object.prototype)) {
  target[key] = val
  return val
}
const ob = target.__ob__
if (target._isVue || (ob && ob.vmCount)) { warn(...); return val }
if (!ob) { target[key] = val; return val }
defineReactive(ob.value, key, val)
ob.dep.notify()
return val
```
An array target with a non-index key falls to the object path with no own
string fields and `_isVue` false. -/
def setFn (t : SetTarget) (k : SetKey) (v : JsVal) : SetOut :=
  match t, k with
  | .arr elems ob, .idx n =>
      let len := max elems.length n
      let grown := elems ++ List.replicate (len - elems.length) .undef
      let p := jsSplice grown n 1 [v]
      { outcome := .spliced, target := .arr p.2 ob, ret := v }
  | .arr elems ob, .name _ =>
      match ob with
      | some o =>
        if o.vmCount > 0 then { outcome := .refusedVueOrRoot, target := .arr elems ob, ret := v }
        else { outcome := .reactiveAdded, target := .arr elems ob, ret := v }
      | none => { outcome := .plainAssigned, target := .arr elems ob, ret := v }
  | .obj fields isVue ob, k =>
      let ks := k.str
      if (fields.lookup ks).isSome then
        { outcome := .assignedExisting, target := .obj (updateField fields ks v) isVue ob, ret := v }
      else if isVue || (match ob with | some o => o.vmCount > 0 | none => false) then
        { outcome := .refusedVueOrRoot, target := .obj fields isVue ob, ret := v }
      else
        match ob with
        | none =>
          { outcome := .plainAssigned, target := .obj (fields ++ [(ks, v)]) isVue ob, ret := v }
        | some _ =>
          { outcome := .reactiveAdded, target := .obj (fields ++ [(ks, v)]) isVue ob, ret := v }

/-! ## `defineReactive`'s non-configurable guard (claim C10) -/

/-- A property descriptor as `defineReactive` inspects and installs it. -/
structure PropDesc where
  configurable : Bool
  hasGet : Bool
  hasSet : Bool
  value : JsVal
  reactive : Bool
deriving DecidableEq, Repr

/-- `defineReactive(obj, key, val)` at the property-table level:
```
const property = Object.getOwnPropertyDescriptor(obj, key)
if (property && property.configurable === false) return
... Object.defineProperty(obj, key, { enumerable: true, configurable: true,
                                      get: reactiveGetter, set: reactiveSetter })
```
Returns the object's property table and whether the reactive accessor was
installed. -/
def defineReactive (obj : List (String × PropDesc)) (key : String) (v : JsVal) :
    List (String × PropDesc) × Bool :=
  match obj.lookup key with
  | some p =>
    if p.configurable = false then (obj, false)
    else
      let d : PropDesc :=
        { configurable := true, hasGet := true, hasSet := true, value := v, reactive := true }
      (obj.map fun kv => if kv.1 = key then (key, d) else kv, true)
  | none =>
      let d : PropDesc :=
        { configurable := true, hasGet := true, hasSet := true, value := v, reactive := true }
      (obj ++ [(key, d)], true)

/-! ## Lemmas: the subscription invariant is inductive -/

theorem count_append_one (l : List Nat) (a b : Nat) :
    (l ++ [b]).count a = l.count a + (if a = b then 1 else 0) := by
  simp [List.count_append, List.count_singleton]
  by_cases h : a = b <;> simp [h, eq_comm]

theorem addDep_skip (wid : Nat) (w : WDeps) (st : List Dep) (did : Nat)
    (h1 : did ∈ w.newDepIds) : addDep wid w st did = (w, st) := by
  simp [addDep, h1]

theorem addDep_known (wid : Nat) (w : WDeps) (st : List Dep) (did : Nat)
    (h1 : did ∉ w.newDepIds) (h2 : did ∈ w.depIds) :
    addDep wid w st did =
      ({ w with newDepIds := w.newDepIds ++ [did], newDeps := w.newDeps ++ [did] }, st) := by
  simp [addDep, h1, h2]

theorem addDep_fresh (wid : Nat) (w : WDeps) (st : List Dep) (did : Nat)
    (h1 : did ∉ w.newDepIds) (h2 : did ∉ w.depIds) :
    addDep wid w st did =
      ({ w with newDepIds := w.newDepIds ++ [did], newDeps := w.newDeps ++ [did] },
        storeAddSub st did wid) := by
  simp [addDep, h1, h2]

theorem addDep_depIds (wid : Nat) (w : WDeps) (st : List Dep) (did : Nat) :
    (addDep wid w st did).1.depIds = w.depIds := by
  by_cases h1 : did ∈ w.newDepIds
  · rw [addDep_skip wid w st did h1]
  · by_cases h2 : did ∈ w.depIds
    · rw [addDep_known wid w st did h1 h2]
    · rw [addDep_fresh wid w st did h1 h2]

theorem addDep_newDepIds_mem (wid : Nat) (w : WDeps) (st : List Dep) (did i : Nat) :
    i ∈ (addDep wid w st did).1.newDepIds ↔ i ∈ w.newDepIds ∨ i = did := by
  by_cases h1 : did ∈ w.newDepIds
  · rw [addDep_skip wid w st did h1]
    constructor
    · exact Or.inl
    · rintro (h | rfl)
      · exact h
      · exact h1
  · by_cases h2 : did ∈ w.depIds
    · rw [addDep_known wid w st did h1 h2]
      simp
    · rw [addDep_fresh wid w st did h1 h2]
      simp

theorem addDep_invMid (wid : Nat) (w : WDeps) (st : List Dep) (did : Nat)
    (h : InvMid wid w st) :
    InvMid wid (addDep wid w st did).1 (addDep wid w st did).2 := by
  obtain ⟨hc, hl1, hl2⟩ := h
  by_cases h1 : did ∈ w.newDepIds
  · rw [addDep_skip wid w st did h1]
    exact ⟨hc, hl1, hl2⟩
  · by_cases h2 : did ∈ w.depIds
    · rw [addDep_known wid w st did h1 h2]
      refine ⟨?_, ?_, ?_⟩
      · intro d hd
        have hcd := hc d hd
        rw [hcd]
        by_cases hdid : d.id = did
        · simp [hdid, h2]
        · simp [hdid]
      · intro i
        exact hl1 i
      · intro i
        simp only [List.mem_append, List.mem_singleton]
        rw [hl2 i]
    · rw [addDep_fresh wid w st did h1 h2]
      refine ⟨?_, ?_, ?_⟩
      · intro d hd
        simp only [storeAddSub, List.mem_map] at hd
        obtain ⟨d0, hd0, rfl⟩ := hd
        have hcd := hc d0 hd0
        by_cases hdid : d0.id = did
        · have hnot : ¬(d0.id ∈ w.depIds ∨ d0.id ∈ w.newDepIds) := by
            rw [hdid]
            rintro (hx | hx)
            exacts [h2 hx, h1 hx]
          simp only [if_pos hdid, Dep.addSub]
          rw [count_append_one, hcd, if_neg hnot]
          simp [hdid]
        · simp only [if_neg hdid]
          rw [hcd]
          simp [hdid]
      · intro i
        exact hl1 i
      · intro i
        simp only [List.mem_append, List.mem_singleton]
        rw [hl2 i]

theorem addDeps_cons (wid : Nat) (w : WDeps) (st : List Dep) (r : Nat) (rs : List Nat) :
    addDeps wid w st (r :: rs) =
      addDeps wid (addDep wid w st r).1 (addDep wid w st r).2 rs := rfl

theorem addDeps_invMid (wid : Nat) (reads : List Nat) :
    ∀ (w : WDeps) (st : List Dep), InvMid wid w st →
      InvMid wid (addDeps wid w st reads).1 (addDeps wid w st reads).2 := by
  induction reads with
  | nil => intro w st h; exact h
  | cons r rs ih =>
    intro w st h
    rw [addDeps_cons]
    exact ih _ _ (addDep_invMid wid w st r h)

theorem addDeps_depIds (wid : Nat) (reads : List Nat) :
    ∀ (w : WDeps) (st : List Dep), (addDeps wid w st reads).1.depIds = w.depIds := by
  induction reads with
  | nil => intro w st; rfl
  | cons r rs ih =>
    intro w st
    rw [addDeps_cons, ih]
    exact addDep_depIds wid w st r

theorem addDeps_newDepIds_mem (wid : Nat) (reads : List Nat) :
    ∀ (w : WDeps) (st : List Dep) (i : Nat),
      i ∈ (addDeps wid w st reads).1.newDepIds ↔ i ∈ w.newDepIds ∨ i ∈ reads := by
  induction reads with
  | nil => intro w st i; simp [addDeps]
  | cons r rs ih =>
    intro w st i
    rw [addDeps_cons, ih]
    rw [addDep_newDepIds_mem]
    simp only [List.mem_cons]
    tauto

/-! ### The cleanup loop, characterized per dep record -/

theorem cleanupStore_cons (wid : Nat) (newIds : List Nat) (did : Nat)
    (rest : List Nat) (st : List Dep) :
    cleanupStore wid newIds (did :: rest) st =
      if newIds.contains did then cleanupStore wid newIds rest st
      else storeRemoveSub (cleanupStore wid newIds rest st) did wid := rfl

theorem depCleanup_cons (wid : Nat) (newIds : List Nat) (did : Nat)
    (rest : List Nat) (d : Dep) :
    depCleanup wid newIds (did :: rest) d =
      if newIds.contains did then depCleanup wid newIds rest d
      else if (depCleanup wid newIds rest d).id = did then
        (depCleanup wid newIds rest d).removeSub wid
      else depCleanup wid newIds rest d := rfl

theorem storeRemoveSub_map (st : List Dep) (g : Dep → Dep) (did wid : Nat) :
    storeRemoveSub (st.map g) did wid =
      st.map (fun d => if (g d).id = did then (g d).removeSub wid else g d) := by
  simp only [storeRemoveSub, List.map_map]
  rfl

theorem cleanupStore_eq_map (wid : Nat) (newIds : List Nat) (depsList : List Nat) :
    ∀ st : List Dep,
      cleanupStore wid newIds depsList st = st.map (depCleanup wid newIds depsList) := by
  induction depsList with
  | nil =>
    intro st
    exact (List.map_id' st).symm
  | cons did rest ih =>
    intro st
    rw [cleanupStore_cons, ih]
    by_cases h : did ∈ newIds
    · have hb : newIds.contains did = true := by simpa using h
      rw [if_pos hb]
      refine List.map_congr_left ?_
      intro d _
      rw [depCleanup_cons, if_pos hb]
    · have hb : newIds.contains did = false := by simp [h]
      rw [hb]
      simp only [Bool.false_eq_true, if_false]
      rw [storeRemoveSub_map]
      refine List.map_congr_left ?_
      intro d _
      rw [depCleanup_cons, hb]
      simp only [Bool.false_eq_true, if_false]

theorem depCleanup_id (wid : Nat) (newIds : List Nat) (depsList : List Nat) (d : Dep) :
    (depCleanup wid newIds depsList d).id = d.id := by
  induction depsList with
  | nil => rfl
  | cons did rest ih =>
    rw [depCleanup_cons]
    by_cases h : newIds.contains did
    · rw [if_pos h]
      exact ih
    · rw [if_neg h]
      by_cases h2 : (depCleanup wid newIds rest d).id = did
      · rw [if_pos h2]
        simpa [Dep.removeSub] using ih
      · rw [if_neg h2]
        exact ih

theorem depCleanup_count (wid : Nat) (newIds : List Nat) (d : Dep)
    (h : d.subs.count wid ≤ 1) (depsList : List Nat) :
    (depCleanup wid newIds depsList d).subs.count wid =
      if d.id ∈ depsList ∧ d.id ∉ newIds then 0 else d.subs.count wid := by
  induction depsList with
  | nil => simp [depCleanup]
  | cons did rest ih =>
    rw [depCleanup_cons]
    by_cases hn : did ∈ newIds
    · have hb : newIds.contains did = true := by simpa using hn
      rw [if_pos hb, ih]
      by_cases hd : d.id = did
      · have hmem : d.id ∈ newIds := hd ▸ hn
        simp [hmem]
      · simp [List.mem_cons, hd]
    · have hb : newIds.contains did = false := by simp [hn]
      rw [hb]
      simp only [Bool.false_eq_true, if_false]
      by_cases hd : (depCleanup wid newIds rest d).id = did
      · rw [if_pos hd]
        have hd2 : d.id = did := by
          rw [← depCleanup_id wid newIds rest d]
          exact hd
        simp only [Dep.removeSub]
        rw [List.count_erase_self, ih]
        have houter : d.id ∈ did :: rest ∧ d.id ∉ newIds :=
          ⟨by simp [hd2], by rw [hd2]; exact hn⟩
        rw [if_pos houter]
        by_cases hr : d.id ∈ rest ∧ d.id ∉ newIds
        · simp [hr]
        · rw [if_neg hr]
          omega
      · rw [if_neg hd, ih]
        have hd2 : d.id ≠ did := by
          intro he
          exact hd (by rw [depCleanup_id]; exact he)
        simp [List.mem_cons, hd2]

theorem cleanupDeps_inv (wid : Nat) (w : WDeps) (st : List Dep)
    (h : InvMid wid w st) :
    Inv wid (cleanupDeps wid w st).1 (cleanupDeps wid w st).2 := by
  obtain ⟨hc, hl1, hl2⟩ := h
  refine ⟨⟨?_, ?_, ?_⟩, rfl, rfl⟩
  · intro d hd
    simp only [cleanupDeps] at hd ⊢
    rw [cleanupStore_eq_map] at hd
    obtain ⟨d0, hd0, rfl⟩ := List.mem_map.mp hd
    have hcd := hc d0 hd0
    have hle : d0.subs.count wid ≤ 1 := by
      rw [hcd]
      split <;> omega
    rw [depCleanup_count wid w.newDepIds d0 hle w.deps, depCleanup_id]
    by_cases hnew : d0.id ∈ w.newDepIds
    · rw [if_neg (fun hx => hx.2 hnew), hcd]
      simp [hnew]
    · by_cases hold : d0.id ∈ w.depIds
      · have hdeps : d0.id ∈ w.deps := (hl1 d0.id).mpr hold
        rw [if_pos ⟨hdeps, hnew⟩]
        simp [hnew]
      · have hdeps : d0.id ∉ w.deps := fun hx => hold ((hl1 d0.id).mp hx)
        rw [if_neg (fun hx => hdeps hx.1), hcd]
        simp [hnew, hold]
  · intro i
    exact hl2 i
  · intro i
    simp [cleanupDeps]

theorem runGet_inv (wid : Nat) (w : WDeps) (st : List Dep) (reads : List Nat)
    (h : Inv wid w st) :
    Inv wid (runGet wid w st reads).1 (runGet wid w st reads).2 := by
  exact cleanupDeps_inv wid _ _ (addDeps_invMid wid reads w st h.1)

theorem runGets_inv (wid : Nat) (evals : List (List Nat)) :
    ∀ (w : WDeps) (st : List Dep), Inv wid w st →
      Inv wid (runGets wid w st evals).1 (runGets wid w st evals).2 := by
  induction evals with
  | nil => intro w st h; exact h
  | cons reads rest ih =>
    intro w st h
    exact ih _ _ (runGet_inv wid w st reads h)

theorem runGet_depIds (wid : Nat) (w : WDeps) (st : List Dep) (reads : List Nat) :
    (runGet wid w st reads).1.depIds = (addDeps wid w st reads).1.newDepIds := rfl

theorem runGet_subs (wid : Nat) (w : WDeps) (st : List Dep) (reads : List Nat)
    (h : Inv wid w st) :
    ∀ d ∈ (runGet wid w st reads).2, (wid ∈ d.subs ↔ d.id ∈ reads) := by
  obtain ⟨⟨hc1, hl1, hl2⟩, hn1, hn2⟩ := runGet_inv wid w st reads h
  intro d hd
  have hcd := hc1 d hd
  have hdi : d.id ∈ (runGet wid w st reads).1.depIds ↔ d.id ∈ reads := by
    rw [runGet_depIds, addDeps_newDepIds_mem]
    simp [h.2.1]
  have hmem : wid ∈ d.subs ↔ d.subs.count wid ≠ 0 := by
    rw [Ne, List.count_eq_zero]
    exact ⟨fun hx hy => hy hx, not_not.mp⟩
  rw [hmem, hcd, hn1]
  by_cases hr : d.id ∈ reads
  · have hin : d.id ∈ (runGet wid w st reads).1.depIds := hdi.mpr hr
    simp [hin, hr]
  · have hout : d.id ∉ (runGet wid w st reads).1.depIds := fun hx => hr (hdi.mp hx)
    simp [hout, hr]

theorem mem_notifyOrder (isDev async : Bool) (d : Dep) (i : Nat) :
    i ∈ Dep.notifyOrder isDev async d ↔ i ∈ d.subs := by
  unfold Dep.notifyOrder
  by_cases h : (isDev && !async) = true
  · simp only [h, if_true]
    exact (List.mergeSort_perm d.subs _).mem_iff
  · simp [h]

theorem teardownStore_eq (wid : Nat) (depsList : List Nat) (st : List Dep) :
    teardownStore wid depsList st = cleanupStore wid [] depsList st := by
  induction depsList with
  | nil => rfl
  | cons did rest ih =>
    show storeRemoveSub (teardownStore wid rest st) did wid =
      cleanupStore wid [] (did :: rest) st
    rw [cleanupStore_cons, ih]
    rfl

/-! ## Claim theorems C1 – C4 -/

/-- **C1.** For every dep record and watcher, the dep's `subs` holds the
watcher at most once, across arbitrarily many `get()` evaluations with
arbitrary read sets: `addDep` skips a dep whose id is already in
`newDepIds` (returning watcher and store untouched), and even for a new id
it calls `dep.addSub` only when the id is also absent from the previous
evaluation's `depIds`. -/
theorem addDep_no_double_subscribe (wid : Nat) (st0 : List Dep)
    (h0 : ∀ d ∈ st0, wid ∉ d.subs) (evals : List (List Nat)) :
    (∀ d ∈ (runGets wid freshWDeps st0 evals).2, d.subs.count wid ≤ 1) ∧
    (∀ (w : WDeps) (st : List Dep) (did : Nat), did ∈ w.newDepIds →
      addDep wid w st did = (w, st)) ∧
    (∀ (w : WDeps) (st : List Dep) (did : Nat), did ∉ w.newDepIds → did ∈ w.depIds →
      (addDep wid w st did).2 = st) := by
  have hInv0 : Inv wid freshWDeps st0 := by
    refine ⟨⟨?_, ?_, ?_⟩, rfl, rfl⟩
    · intro d hd
      have hz : d.subs.count wid = 0 := List.count_eq_zero.mpr (h0 d hd)
      simpa [freshWDeps] using hz
    · intro i
      simp [freshWDeps]
    · intro i
      simp [freshWDeps]
  have hInv := runGets_inv wid evals freshWDeps st0 hInv0
  refine ⟨?_, ?_, ?_⟩
  · intro d hd
    rw [hInv.1.1 d hd]
    split <;> omega
  · intro w st did h1
    exact addDep_skip wid w st did h1
  · intro w st did h1 h2
    rw [addDep_known wid w st did h1 h2]

theorem addDep_no_double_subscribe_witness :
    (∀ d ∈ [Dep.mk 0 [], Dep.mk 1 []], (7 : Nat) ∉ d.subs) ∧
    (∀ d ∈ (runGets 7 freshWDeps [Dep.mk 0 [], Dep.mk 1 []] [[0, 1, 0], [1]]).2,
      d.subs.count 7 ≤ 1) := by
  refine ⟨by decide, ?_⟩
  exact (addDep_no_double_subscribe 7 [Dep.mk 0 [], Dep.mk 1 []] (by decide)
    [[0, 1, 0], [1]]).1

/-- **C2.** `cleanupDeps` swaps `deps ← newDeps` and clears `newDeps`; and
after a `get()` evaluation, the watcher is absent from the subscriber list
of every dep it did not read this round (in particular every dep of the
previous `deps` list whose id is not in the new id-set), so a subsequent
`notify()` of such a dep does not reach — hence does not run — the watcher. -/
theorem cleanupDeps_branch_shedding (wid : Nat) (w0 : WDeps) (st0 : List Dep)
    (reads : List Nat) (isDev async : Bool) (h : Inv wid w0 st0) :
    (∀ (w : WDeps) (st : List Dep),
      (cleanupDeps wid w st).1.deps = w.newDeps ∧ (cleanupDeps wid w st).1.newDeps = []) ∧
    (∀ d ∈ (runGet wid w0 st0 reads).2, d.id ∉ reads →
      wid ∉ d.subs ∧ wid ∉ Dep.notifyOrder isDev async d) := by
  refine ⟨fun w st => ⟨rfl, rfl⟩, ?_⟩
  intro d hd hnr
  have hiff := runGet_subs wid w0 st0 reads h d hd
  have hns : wid ∉ d.subs := fun hx => hnr (hiff.mp hx)
  exact ⟨hns, fun hx => hns ((mem_notifyOrder isDev async d wid).mp hx)⟩

theorem cleanupDeps_branch_shedding_witness :
    Inv 5 freshWDeps [Dep.mk 0 [], Dep.mk 1 []] ∧
    ((∀ (w : WDeps) (st : List Dep),
        (cleanupDeps 5 w st).1.deps = w.newDeps ∧ (cleanupDeps 5 w st).1.newDeps = []) ∧
     (∀ d ∈ (runGet 5 freshWDeps [Dep.mk 0 [], Dep.mk 1 []] [0]).2, d.id ∉ [0] →
        (5 : Nat) ∉ d.subs ∧ (5 : Nat) ∉ Dep.notifyOrder true false d)) := by
  have hInv : Inv 5 freshWDeps [Dep.mk 0 [], Dep.mk 1 []] := by
    refine ⟨⟨?_, ?_, ?_⟩, rfl, rfl⟩
    · intro d hd
      fin_cases hd
      all_goals simp [freshWDeps]
    · intro i
      simp [freshWDeps]
    · intro i
      simp [freshWDeps]
  exact ⟨hInv, cleanupDeps_branch_shedding 5 freshWDeps [Dep.mk 0 [], Dep.mk 1 []]
    [0] true false hInv⟩

/-- **C3.** After `teardown()` on an active watcher, the watcher is absent
from every dep record's subscriber list (so no `notify()` reaches it), its
`active` flag is false, and `run()` on an inactive watcher does nothing: it
neither evaluates nor fires the callback. -/
theorem teardown_complete (wid : Nat) (w : WDeps) (ts : TearState) (st : List Dep)
    (isDev async : Bool) (h : Inv wid w st) (hact : ts.active = true) :
    (teardown wid w ts st).1.active = false ∧
    (∀ d ∈ (teardown wid w ts st).2, wid ∉ d.subs ∧ wid ∉ Dep.notifyOrder isDev async d) ∧
    (∀ (deep : Bool) (oldV newV : JsVal),
      runW false deep oldV newV =
        { value := oldV, fired := false, evaluated := false }) := by
  refine ⟨?_, ?_, ?_⟩
  · simp [teardown, hact]
  · intro d hd
    have hstep : (teardown wid w ts st).2 = teardownStore wid w.deps st := by
      simp [teardown, hact]
    rw [hstep, teardownStore_eq, cleanupStore_eq_map] at hd
    obtain ⟨d0, hd0, rfl⟩ := List.mem_map.mp hd
    obtain ⟨⟨hc, hl1, hl2⟩, hn1, hn2⟩ := h
    have hcd := hc d0 hd0
    have hle : d0.subs.count wid ≤ 1 := by
      rw [hcd]
      split <;> omega
    have hcount : (depCleanup wid [] w.deps d0).subs.count wid = 0 := by
      rw [depCleanup_count wid [] d0 hle w.deps]
      by_cases hdp : d0.id ∈ w.deps
      · simp [hdp]
      · have hdep : d0.id ∉ w.depIds := fun hx => hdp ((hl1 d0.id).mpr hx)
        rw [if_neg (fun hx => hdp hx.1), hcd]
        simp [hdep, hn1]
    have hns : wid ∉ (depCleanup wid [] w.deps d0).subs := List.count_eq_zero.mp hcount
    exact ⟨hns, fun hx => hns ((mem_notifyOrder isDev async _ wid).mp hx)⟩
  · intro deep oldV newV
    rfl

theorem teardown_complete_witness :
    Inv 3 (WDeps.mk [0] [] [0] []) [Dep.mk 0 [3]] ∧
    (TearState.mk true [3] false).active = true ∧
    ((teardown 3 (WDeps.mk [0] [] [0] []) (TearState.mk true [3] false)
        [Dep.mk 0 [3]]).1.active = false ∧
     (∀ d ∈ (teardown 3 (WDeps.mk [0] [] [0] []) (TearState.mk true [3] false)
        [Dep.mk 0 [3]]).2, (3 : Nat) ∉ d.subs ∧ (3 : Nat) ∉ Dep.notifyOrder true false d) ∧
     (∀ (deep : Bool) (oldV newV : JsVal),
        runW false deep oldV newV =
          { value := oldV, fired := false, evaluated := false })) := by
  have hInv : Inv 3 (WDeps.mk [0] [] [0] []) [Dep.mk 0 [3]] := by
    refine ⟨⟨?_, ?_, ?_⟩, rfl, rfl⟩
    · intro d hd
      fin_cases hd
      decide
    · intro i
      simp
    · intro i
      simp
  exact ⟨hInv, rfl, teardown_complete 3 (WDeps.mk [0] [] [0] [])
    (TearState.mk true [3] false) [Dep.mk 0 [3]] true false hInv rfl⟩

/-- **C4.** `Watcher.get()` always restores the dependency bookkeeping: the
target stack is back to what it was (`popTarget` paired with `pushTarget`),
`cleanupDeps` has run on every exit path (the `new*` side is empty, and the
subscription invariant is preserved), the getter's value is returned on
success, an exception from a `user` watcher's getter is routed to
`handleError` and swallowed, and an exception from a non-`user` watcher's
getter propagates to the caller. -/
theorem watcherGet_restores (wid : Nat) (user deep : Bool)
    (gr : Except String JsVal) (reads traverseReads : List Nat)
    (stack : List (Option Nat)) (w : WDeps) (st : List Dep) :
    (watcherGet wid user deep gr reads traverseReads stack w st).stack = stack ∧
    (watcherGet wid user deep gr reads traverseReads stack w st).w.newDepIds = [] ∧
    (watcherGet wid user deep gr reads traverseReads stack w st).w.newDeps = [] ∧
    (Inv wid w st →
      Inv wid (watcherGet wid user deep gr reads traverseReads stack w st).w
        (watcherGet wid user deep gr reads traverseReads stack w st).st) ∧
    (∀ v, gr = .ok v →
      (watcherGet wid user deep gr reads traverseReads stack w st).result = .ok (some v) ∧
      (watcherGet wid user deep gr reads traverseReads stack w st).handled = []) ∧
    (∀ e, gr = .error e → user = true →
      (watcherGet wid user deep gr reads traverseReads stack w st).result = .ok none ∧
      (watcherGet wid user deep gr reads traverseReads stack w st).handled = [e]) ∧
    (∀ e, gr = .error e → user = false →
      (watcherGet wid user deep gr reads traverseReads stack w st).result = .error e ∧
      (watcherGet wid user deep gr reads traverseReads stack w st).handled = []) := by
  cases gr with
  | ok v =>
    refine ⟨rfl, rfl, rfl, ?_, ?_, ?_, ?_⟩
    · intro h
      exact cleanupDeps_inv wid _ _
        (addDeps_invMid wid _ _ _ (addDeps_invMid wid reads w st h.1))
    · intro v2 hv
      cases hv
      exact ⟨rfl, rfl⟩
    · intro e he
      exact Except.noConfusion he
    · intro e he
      exact Except.noConfusion he
  | error e =>
    cases user with
    | true =>
      refine ⟨rfl, rfl, rfl, ?_, ?_, ?_, ?_⟩
      · intro h
        exact cleanupDeps_inv wid _ _
          (addDeps_invMid wid _ _ _ (addDeps_invMid wid reads w st h.1))
      · intro v hv
        exact Except.noConfusion hv
      · intro e2 he _
        injection he with h1
        subst h1
        exact ⟨rfl, rfl⟩
      · intro e2 he hu
        exact Bool.noConfusion hu
    | false =>
      refine ⟨rfl, rfl, rfl, ?_, ?_, ?_, ?_⟩
      · intro h
        exact cleanupDeps_inv wid _ _
          (addDeps_invMid wid _ _ _ (addDeps_invMid wid reads w st h.1))
      · intro v hv
        exact Except.noConfusion hv
      · intro e2 he hu
        exact Bool.noConfusion hu
      · intro e2 he _
        injection he with h1
        subst h1
        exact ⟨rfl, rfl⟩

theorem watcherGet_restores_witness :
    Inv 1 freshWDeps [Dep.mk 0 []] ∧
    ((watcherGet 1 true true (.error "boom") [0] [2] [none] freshWDeps
        [Dep.mk 0 []]).stack = [none] ∧
     Inv 1 (watcherGet 1 true true (.error "boom") [0] [2] [none] freshWDeps
        [Dep.mk 0 []]).w
       (watcherGet 1 true true (.error "boom") [0] [2] [none] freshWDeps
        [Dep.mk 0 []]).st ∧
     (watcherGet 1 true true (.error "boom") [0] [2] [none] freshWDeps
        [Dep.mk 0 []]).result = .ok none ∧
     (watcherGet 1 true true (.error "boom") [0] [2] [none] freshWDeps
        [Dep.mk 0 []]).handled = ["boom"]) := by
  have hInv : Inv 1 freshWDeps [Dep.mk 0 []] := by
    refine ⟨⟨?_, ?_, ?_⟩, rfl, rfl⟩
    · intro d hd
      fin_cases hd
      simp [freshWDeps]
    · intro i
      simp [freshWDeps]
    · intro i
      simp [freshWDeps]
  obtain ⟨hstack, hn1, hn2, hinv, hok, herr, herrn⟩ :=
    watcherGet_restores 1 true true (.error "boom") [0] [2] [none] freshWDeps
      [Dep.mk 0 []]
  exact ⟨hInv, hstack, hinv hInv, (herr "boom" rfl rfl).1, (herr "boom" rfl rfl).2⟩

/-! ## Claim theorems C5 – C10 -/

/-- **C5, counterexample to the claim as stated.** A property with a
pre-existing getter but no pre-existing setter: old value `1`, write `2`.
The claim says such a write (not equal, no NaN) "delegates to the prior
setter if present, else updates the closure-held value … and calls
`dep.notify()`"; the code's `if (getter && !setter) return` (#7981) instead
returns without updating anything and without notifying. -/
theorem reactiveSetter_claim_cex :
    reactiveSetter false false false (some (.num 1)) false (.num 0) (.num 2) =
      { val := .num 0, setterCalled := false, observedNew := false,
        notified := false, customCalled := false } := by
  rfl

/-- **C5, amended.** A write with `newVal === value`, or with both values
self-unequal (the NaN guard), returns without notifying and without
changing state. Otherwise, if the property has a getter but no setter, the
write also returns without notifying or updating (after the dev-only
`customSetter` call). In the remaining case the write delegates to the
prior setter if present, else updates the closure value, attempts
`observe(newVal)` unless shallow, and notifies. In particular a property
whose current value is `NaN` never notifies on an assignment of `NaN`. -/
theorem reactiveSetter_spec (isDev hasCustom shallow : Bool) (getter : Option JsVal)
    (hasSetter : Bool) (val newVal : JsVal) :
    ((seq newVal (getter.getD val) ||
        (!seq newVal newVal && !seq (getter.getD val) (getter.getD val))) = true →
      reactiveSetter isDev hasCustom shallow getter hasSetter val newVal =
        { val := val, setterCalled := false, observedNew := false,
          notified := false, customCalled := false }) ∧
    ((seq newVal (getter.getD val) ||
        (!seq newVal newVal && !seq (getter.getD val) (getter.getD val))) = false →
      getter.isSome = true → hasSetter = false →
      reactiveSetter isDev hasCustom shallow getter hasSetter val newVal =
        { val := val, setterCalled := false, observedNew := false,
          notified := false, customCalled := isDev && hasCustom }) ∧
    ((seq newVal (getter.getD val) ||
        (!seq newVal newVal && !seq (getter.getD val) (getter.getD val))) = false →
      (getter.isSome = false ∨ hasSetter = true) →
      reactiveSetter isDev hasCustom shallow getter hasSetter val newVal =
        { val := if hasSetter then val else newVal, setterCalled := hasSetter,
          observedNew := !shallow, notified := true,
          customCalled := isDev && hasCustom }) ∧
    (getter.getD val = .nan → newVal = .nan →
      (reactiveSetter isDev hasCustom shallow getter hasSetter val newVal).notified =
        false) := by
  refine ⟨?_, ?_, ?_, ?_⟩
  · intro hg
    simp [reactiveSetter, hg]
  · intro hg hs hn
    simp [reactiveSetter, hg, hs, hn]
  · intro hg hor
    have hcond : (getter.isSome && !hasSetter) = false := by
      rcases hor with h | h <;> simp [h]
    simp [reactiveSetter, hg, hcond]
  · intro hv hn
    simp [reactiveSetter, hv, hn, seq]

theorem reactiveSetter_spec_witness :
    (seq .nan ((none : Option JsVal).getD .nan) ||
      (!seq .nan .nan &&
        !seq ((none : Option JsVal).getD .nan) ((none : Option JsVal).getD .nan))) =
      true ∧
    reactiveSetter false false false none false .nan .nan =
      { val := .nan, setterCalled := false, observedNew := false,
        notified := false, customCalled := false } := by
  exact ⟨by decide,
    (reactiveSetter_spec false false false none false .nan .nan).1 (by decide)⟩

/-- **C6.** Every intercepted mutator delegates: the wrapper's return value
and array post-state are exactly those of the unwrapped original; the
wrapper always notifies the owner observer's shape dep; and the elements
handed to `observeArray` are the method's arguments for `push`/`unshift`,
`args.slice(2)` for `splice`, and nothing for the other four methods. -/
theorem mutator_round_trip {α : Type} (l : List α) (op : ArrOp α) :
    (mutator l op).ret = (applyOriginal l op).1 ∧
    (mutator l op).arr = (applyOriginal l op).2 ∧
    (mutator l op).notified = true ∧
    (mutator l op).observed = insertedOf op ∧
    (∀ args : List α, insertedOf (ArrOp.push args) = args) ∧
    (∀ args : List α, insertedOf (ArrOp.unshift args) = args) ∧
    (∀ (s dc : Int) (items : List α), insertedOf (ArrOp.splice s dc items) = items) ∧
    insertedOf (ArrOp.pop : ArrOp α) = [] ∧
    insertedOf (ArrOp.shift : ArrOp α) = [] ∧
    (∀ le : α → α → Bool, insertedOf (ArrOp.sort le) = []) ∧
    insertedOf (ArrOp.reverse : ArrOp α) = [] :=
  ⟨rfl, rfl, rfl, rfl, fun _ => rfl, fun _ => rfl, fun _ _ _ => rfl, rfl, rfl,
    fun _ => rfl, rfl⟩

/-- **C7, counterexample to the claim as stated.** A container observed
earlier and frozen afterwards: it carries `__ob__` and is non-extensible.
The claim demands `observe` return `undefined` for any non-extensible
container, but the `__ob__` check comes first and returns the existing
observer. -/
theorem observe_claim_cex :
    observe true false (.cont (Container.mk (some 0) true false false false)) =
      some (.existing 0) ∧
    observe true false (.cont (Container.mk (some 0) true false false false)) ≠
      none := by
  exact ⟨rfl, by decide⟩

/-- **C7, amended.** `observe` is idempotent — a container already carrying
an own `__ob__` observer gets that observer back, with none created — and a
primitive, a `VNode` instance, or a non-extensible container *that does not
already carry* `__ob__` is never observed: `observe` returns `undefined`
and installs nothing. -/
theorem observe_idempotent_guards (s i : Bool) (c : Container) (j : Nat) :
    (c.ob = some j → observe s i (.cont c) = some (.existing j)) ∧
    observe s i .prim = none ∧
    observe s i .vnode = none ∧
    (c.ob = none → c.extensible = false → observe s i (.cont c) = none) := by
  refine ⟨?_, rfl, rfl, ?_⟩
  · intro h
    simp [observe, h]
  · intro h he
    simp [observe, h, he]

theorem observe_idempotent_guards_witness :
    (Container.mk (some 4) false true true false).ob = some 4 ∧
    observe true false (.cont (Container.mk (some 4) false true true false)) =
      some (.existing 4) ∧
    (Container.mk none false true false false).ob = none ∧
    (Container.mk none false true false false).extensible = false ∧
    observe true false (.cont (Container.mk none false true false false)) = none := by
  obtain ⟨h1, _, _, _⟩ :=
    observe_idempotent_guards true false (Container.mk (some 4) false true true false) 4
  obtain ⟨_, _, _, h4⟩ :=
    observe_idempotent_guards true false (Container.mk none false true false false) 4
  exact ⟨rfl, h1 rfl, rfl, rfl, h4 rfl rfl⟩

/-- **C8, counterexample to the claim as stated.** A target with no
observer but flagged `_isVue`, and a fresh key: the claim (following the
spec's step ordering) demands a plain assignment, but the code checks
`target._isVue || (ob && ob.vmCount)` *before* the no-observer case, so it
warns and returns the value with the target unchanged. -/
theorem set_claim_cex :
    setFn (.obj [] true none) (.name "x") (.num 1) =
      { outcome := .refusedVueOrRoot, target := .obj [] true none, ret := .num 1 } := by
  rfl

/-- **C8, amended.** On a non-array target where the key is not already
present: if the target lacks an observer *and* is not flagged `_isVue`,
`set` performs a plain non-reactive assignment and returns the value; the
framework-instance prohibition is checked *before* the no-observer case, so
an observer-less `_isVue` target is refused with the target unchanged. -/
theorem set_plain_assign_no_observer (fields : List (String × JsVal)) (k : SetKey)
    (v : JsVal) (h1 : fields.lookup k.str = none) :
    setFn (.obj fields false none) k v =
      { outcome := .plainAssigned, target := .obj (fields ++ [(k.str, v)]) false none,
        ret := v } ∧
    setFn (.obj fields true none) k v =
      { outcome := .refusedVueOrRoot, target := .obj fields true none, ret := v } := by
  constructor <;> simp [setFn, h1]

theorem set_plain_assign_no_observer_witness :
    ([] : List (String × JsVal)).lookup (SetKey.name "x").str = none ∧
    setFn (.obj [] false none) (.name "x") (.num 1) =
      { outcome := .plainAssigned, target := .obj [("x", .num 1)] false none,
        ret := .num 1 } := by
  exact ⟨rfl, (set_plain_assign_no_observer [] (SetKey.name "x") (.num 1) rfl).1⟩

/-- **C9, counterexample to the claim as stated.** In a production build
(`process.env.NODE_ENV === 'production'`) with `config.async === false`,
`notify()` does not sort: subscribers `[2, 1]` are updated in stored order,
which is not ascending — and the order differs from the dev build at the
same `config.async` value, so the ordering is not a function of
`config.async` alone. -/
theorem notify_claim_cex :
    Dep.notifyOrder false false (Dep.mk 0 [2, 1]) = [2, 1] ∧
    ¬ List.Pairwise (· ≤ ·) (Dep.notifyOrder false false (Dep.mk 0 [2, 1])) ∧
    Dep.notifyOrder false false (Dep.mk 0 [2, 1]) ≠
      Dep.notifyOrder true false (Dep.mk 0 [2, 1]) := by
  refine ⟨rfl, by decide, ?_⟩
  have h : Dep.notifyOrder true false (Dep.mk 0 [2, 1]) = [1, 2] := by
    simp [Dep.notifyOrder, List.mergeSort]
  rw [h]
  decide

/-- **C9, amended.** `Dep.notify()` sorts its subscriber snapshot by id
ascending only in non-production builds with `config.async` false (there
the result is an ascending permutation of `subs`); in a production build,
or whenever `config.async` is true, the snapshot is used in stored order —
the ordering depends on the dev-build flag as well as on `config.async`. -/
theorem notify_sorts_only_in_dev (d : Dep) (async isDev : Bool) :
    List.Pairwise (· ≤ ·) (Dep.notifyOrder true false d) ∧
    (Dep.notifyOrder true false d).Perm d.subs ∧
    Dep.notifyOrder false async d = d.subs ∧
    Dep.notifyOrder isDev true d = d.subs := by
  refine ⟨?_, ?_, rfl, ?_⟩
  · have hs := @List.sorted_mergeSort Nat (fun a b : Nat => a ≤ b)
      (fun a b c h1 h2 => by
        simp only [decide_eq_true_eq] at h1 h2 ⊢
        omega)
      (fun a b => by
        by_cases h : a ≤ b
        · simp [h]
        · simp [h]
          omega)
      d.subs
    exact hs.imp (fun h => by simpa using h)
  · exact List.mergeSort_perm d.subs _
  · cases isDev <;> rfl

/-- **C10.** For a property whose existing descriptor has
`configurable === false`, `defineReactive` returns immediately: no reactive
accessor is installed and the object's property table is unchanged. -/
theorem defineReactive_nonconfigurable (obj : List (String × PropDesc)) (key : String)
    (v : JsVal) (p : PropDesc) (h1 : obj.lookup key = some p)
    (h2 : p.configurable = false) :
    defineReactive obj key v = (obj, false) := by
  simp [defineReactive, h1, h2]

theorem defineReactive_nonconfigurable_witness :
    ([("a", PropDesc.mk false false false (.num 1) false)]).lookup "a" =
      some (PropDesc.mk false false false (.num 1) false) ∧
    (PropDesc.mk false false false (.num 1) false).configurable = false ∧
    defineReactive [("a", PropDesc.mk false false false (.num 1) false)] "a" (.num 2) =
      ([("a", PropDesc.mk false false false (.num 1) false)], false) := by
  exact ⟨rfl, rfl,
    defineReactive_nonconfigurable _ "a" (.num 2)
      (PropDesc.mk false false false (.num 1) false) rfl rfl⟩

end V2

